import Mathlib

/-!
Verification of `src/budget_forecasting.py` (budget-forecasting-tool).

The pipeline aggregates ledger records by (month, category), builds a
contiguous monthly series per category, forecasts `periods` future values
per category (statistical engine or naive fallback), and assembles the
per-category forecasts into one long table.

Months are modelled as natural numbers counting calendar months since an
epoch: `pd.Timestamp` month-start values with `MonthBegin(1)` as `+ 1`.
Amounts are modelled as rationals. The statsmodels SARIMAX engine is an
external dependency (the `try: import ... except ImportError` at lines
25-28), so it is a parameter: `none` models `SARIMAX = None`, and a
present engine is a function that may return a runtime error from `fit`.
Fallible pandas operations (`pd.concat([])`, `iloc[-1]` on an empty
series, `pd.DataFrame` with mismatched column lengths) are modelled with
`Except`.
-/

namespace BudgetForecasting

set_option maxRecDepth 1000000

/-- A ledger record after ingestion (`load_ledger` has already derived the
month key from the date; the Date column itself is not used downstream). -/
structure Record where
  month : Nat
  category : String
  amount : Rat
deriving DecidableEq

/-- One row of the aggregated actuals table (`aggregate_by_month` output):
a (Month, Category, Amount) triple. -/
structure ActualsRow where
  month : Nat
  category : String
  total : Rat
deriving DecidableEq

/-- One row of the assembled forecast table (`build_forecast` output):
a (Month, Category, Forecast) triple. -/
structure ForecastRow where
  month : Nat
  category : String
  forecast : Rat
deriving DecidableEq

/-- The (Month, Category) group key used by `df.groupby(['Month', 'Category'])`. -/
def keyOf (r : Record) : Nat × String :=
  (r.month, r.category)

/-- Lexicographic order on group keys: pandas `groupby` sorts the result by
the key columns, month-major then category. -/
def keyLE (a b : Nat × String) : Prop :=
  a.1 < b.1 ∨ (a.1 = b.1 ∧ a.2 ≤ b.2)

instance : DecidableRel keyLE := fun a b => by
  unfold keyLE
  infer_instance

instance : IsTotal (Nat × String) keyLE := by
  constructor
  intro a b
  rcases Nat.lt_trichotomy a.1 b.1 with h | h | h
  · exact Or.inl (Or.inl h)
  · rcases le_total a.2 b.2 with h2 | h2
    · exact Or.inl (Or.inr ⟨h, h2⟩)
    · exact Or.inr (Or.inr ⟨h.symm, h2⟩)
  · exact Or.inr (Or.inl h)

instance : IsTrans (Nat × String) keyLE := by
  constructor
  intro a b c hab hbc
  rcases hab with h1 | ⟨h1, h1s⟩
  · rcases hbc with h2 | ⟨h2, _⟩
    · exact Or.inl (h1.trans h2)
    · exact Or.inl (h2 ▸ h1)
  · rcases hbc with h2 | ⟨h2, h2s⟩
    · exact Or.inl (h1 ▸ h2)
    · exact Or.inr ⟨h1.trans h2, h1s.trans h2s⟩

/-- The distinct group keys of the input, in the sorted order in which
pandas `groupby(['Month', 'Category'])` emits its groups. -/
def aggKeys (rs : List Record) : List (Nat × String) :=
  List.insertionSort keyLE ((rs.map keyOf).dedup)

/-- The summed amount for one (month, category) group:
`['Amount'].sum()` over the records of that group. -/
def totalFor (rs : List Record) (k : Nat × String) : Rat :=
  ((rs.filter (fun r => keyOf r == k)).map Record.amount).sum

/-- `aggregate_by_month` (line 42-44):
`df.groupby(['Month', 'Category'])['Amount'].sum().reset_index()`.
One row per distinct (month, category) key, rows sorted by key, the total
being the sum of the amounts of the contributing records. -/
def aggregate_by_month (rs : List Record) : List ActualsRow :=
  (aggKeys rs).map (fun k => ⟨k.1, k.2, totalFor rs k⟩)

/-- The rows of one category group of `df.groupby('Category')` inside
`build_forecast`: the rows with that category, in table order. -/
def groupFor (rows : List ActualsRow) (c : String) : List ActualsRow :=
  rows.filter (fun r => r.category == c)

/-- The sorted distinct category labels, in the order `groupby('Category')`
iterates the groups. -/
def categoriesOf (rows : List ActualsRow) : List String :=
  List.insertionSort (fun a b => a ≤ b) ((rows.map ActualsRow.category).dedup)

/-- `periods` consecutive months starting at `start`:
`pd.date_range(start, periods=periods, freq='MS')`. -/
def month_range (start periods : Nat) : List Nat :=
  (List.range periods).map (fun i => start + i)

/-- `group.set_index('Month')['Amount'].asfreq('MS').fillna(0)` (line 67):
reindex the group onto the full contiguous monthly range from its first
index entry to its last, a missing month getting NaN, then 0 by `fillna`. -/
def asfreqFill (g : List ActualsRow) : List (Nat × Rat) :=
  match g with
  | [] => []
  | r0 :: rest =>
    let first := r0.month
    let last := (rest.getLastD r0).month
    (List.range (last + 1 - first)).map (fun i =>
      (first + i,
       match (r0 :: rest).find? (fun r => r.month == first + i) with
       | some r => r.total
       | none => 0))

/-- Modelled from the spec: the statistical fitting engine (statsmodels
SARIMAX, an external dependency outside this repository). It receives the
series values and the horizon and returns the point forecasts, or a
runtime error when the fit fails (e.g. numerical non-convergence). -/
def Engine : Type :=
  List Rat → Nat → Except String (List Rat)

/-- The fallback branch of `forecast_series` (lines 53-55):
`last = series.iloc[-1]; return pd.Series([last] * periods)`.
`iloc[-1]` on an empty series raises. -/
def naiveForecast (values : List Rat) (periods : Nat) : Except String (List Rat) :=
  match values.getLast? with
  | none => Except.error "IndexError: single positional indexer is out-of-bounds"
  | some last => Except.ok (List.replicate periods last)

/-- `forecast_series` (lines 47-60): if `SARIMAX is None or len(series) < 6`
take the fallback, otherwise fit and forecast with the engine; there is no
handler around the fit call, so an engine error is returned as-is. -/
def forecast_series (engine : Option Engine) (values : List Rat) (periods : Nat) :
    Except String (List Rat) :=
  match engine with
  | none => naiveForecast values periods
  | some e =>
    if values.length < 6 then naiveForecast values periods
    else e values periods

/-- `pd.DataFrame({'Month': fc_index, 'Category': category, 'Forecast': fc.values})`
(line 70): pandas raises `ValueError` when the column arrays have different
lengths; otherwise the rows pair the months with the forecast values. -/
def mkFrame (index : List Nat) (c : String) (vals : List Rat) :
    Except String (List ForecastRow) :=
  if index.length = vals.length then
    Except.ok ((index.zip vals).map (fun p => ⟨p.1, c, p.2⟩))
  else Except.error "ValueError: array lengths differ"

/-- One iteration of the loop in `build_forecast` (lines 66-70) for
category `c`: build the contiguous series, forecast it, advance the month
index by one month past the last series month, and assemble the frame. -/
def frameFor (engine : Option Engine) (rows : List ActualsRow) (periods : Nat)
    (c : String) : Except String (List ForecastRow) :=
  let ts := asfreqFill (groupFor rows c)
  match forecast_series engine (ts.map Prod.snd) periods with
  | Except.error e => Except.error e
  | Except.ok fc =>
    match ts.getLast? with
    | none => Except.error "IndexError: index -1 is out of bounds"
    | some lp => mkFrame (month_range (lp.1 + 1) periods) c fc

/-- The `for category, group in df.groupby('Category')` loop of
`build_forecast`: the per-category frames in sorted category order, the
first error aborting the run. -/
def buildFrames (engine : Option Engine) (rows : List ActualsRow) (periods : Nat) :
    List String → Except String (List (List ForecastRow))
  | [] => Except.ok []
  | c :: cs =>
    match frameFor engine rows periods c with
    | Except.error e => Except.error e
    | Except.ok fr =>
      match buildFrames engine rows periods cs with
      | Except.error e => Except.error e
      | Except.ok rest => Except.ok (fr :: rest)

/-- `build_forecast` (lines 63-71): run the per-category loop over the
sorted category groups and concatenate the frames;
`pd.concat(forecasts, ignore_index=True)` raises `ValueError` when the
list of frames is empty (no categories). -/
def build_forecast (engine : Option Engine) (rows : List ActualsRow) (periods : Nat) :
    Except String (List ForecastRow) :=
  match categoriesOf rows with
  | [] => Except.error "ValueError: No objects to concatenate"
  | c :: cs =>
    match buildFrames engine rows periods (c :: cs) with
    | Except.error e => Except.error e
    | Except.ok frames => Except.ok frames.flatten

/-- The parsed command-line arguments of `main` (lines 82-85): argparse is
configured with exactly two options, `--input` and `--output`, both
required; no horizon/periods option is registered. -/
structure Args where
  input : String
  output : String
deriving DecidableEq

/-- The option strings registered with the argparse parser in `main`. -/
def recognizedOpts : List String :=
  ["--input", "--output"]

/-- Shallow model of `parser.parse_args()` on an option-value list:
an unrecognized option is an error, a missing required option is an
error, otherwise the two values are returned. -/
def parse_args (argv : List (String × String)) : Except String Args :=
  if argv.all (fun p => recognizedOpts.contains p.1) then
    match argv.lookup "--input", argv.lookup "--output" with
    | some i, some o => Except.ok ⟨i, o⟩
    | none, _ => Except.error "the following arguments are required: --input"
    | some _, none => Except.error "the following arguments are required: --output"
  else Except.error "unrecognized arguments"

/-- The pipeline body of `main` (lines 87-90) after ingestion: aggregate,
then `build_forecast(monthly)` with the default horizon of 6 (main passes
no `periods` argument), returning the two tables handed to `save_to_excel`. -/
def run_pipeline (engine : Option Engine) (recs : List Record) :
    Except String (List ActualsRow × List ForecastRow) :=
  match build_forecast engine (aggregate_by_month recs) 6 with
  | Except.error e => Except.error e
  | Except.ok fc => Except.ok (aggregate_by_month recs, fc)

instance exceptDecEq {ε α : Type} [DecidableEq ε] [DecidableEq α] :
    DecidableEq (Except ε α) := fun a b =>
  match a, b with
  | Except.error e1, Except.error e2 =>
    match decEq e1 e2 with
    | isTrue h => isTrue (congrArg Except.error h)
    | isFalse h => isFalse (fun hc => h (by injection hc))
  | Except.error _, Except.ok _ => isFalse (fun hc => Except.noConfusion hc)
  | Except.ok _, Except.error _ => isFalse (fun hc => Except.noConfusion hc)
  | Except.ok a1, Except.ok a2 =>
    match decEq a1 a2 with
    | isTrue h => isTrue (congrArg Except.ok h)
    | isFalse h => isFalse (fun hc => h (by injection hc))

/-- A concrete engine whose fit always raises, used to witness the
error-propagation behaviour. -/
def failingEngine : Engine := fun _ _ => Except.error "LinAlgError: fit failed"

/-! ### Helper lemmas on sums, for the aggregation conservation law -/

lemma sum_map_add {α : Type} (l : List α) (f g : α → Rat) :
    (l.map (fun x => f x + g x)).sum = (l.map f).sum + (l.map g).sum := by
  induction l with
  | nil => simp
  | cons a t ih => simp [ih]; ring

lemma sum_map_ite {κ : Type} [DecidableEq κ] (ks : List κ) (k : κ) (v : Rat)
    (hnd : ks.Nodup) (hk : k ∈ ks) :
    (ks.map (fun j => if k = j then v else 0)).sum = v := by
  induction ks with
  | nil => cases hk
  | cons a t ih =>
    rcases List.mem_cons.mp hk with h | h
    · subst h
      have hz : ∀ j ∈ t, (if k = j then v else (0 : Rat)) = 0 := by
        intro j hj
        apply if_neg
        intro he
        subst he
        exact (List.nodup_cons.mp hnd).1 hj
      rw [List.map_cons, if_pos rfl, List.sum_cons, List.map_congr_left hz]
      simp
    · have hne : k ≠ a := by
        intro he
        subst he
        exact (List.nodup_cons.mp hnd).1 h
      rw [List.map_cons, if_neg hne, List.sum_cons,
        ih (List.nodup_cons.mp hnd).2 h]
      simp

lemma totalFor_cons (r : Record) (rs : List Record) (k : Nat × String) :
    totalFor (r :: rs) k = (if keyOf r = k then r.amount else 0) + totalFor rs k := by
  by_cases h : keyOf r = k
  · simp [totalFor, List.filter_cons, h]
  · simp [totalFor, List.filter_cons, h]

lemma sum_totals (ks : List (Nat × String)) (rs : List Record)
    (hnd : ks.Nodup) (hcov : ∀ r ∈ rs, keyOf r ∈ ks) :
    (ks.map (fun k => totalFor rs k)).sum = (rs.map Record.amount).sum := by
  induction rs with
  | nil => simp [totalFor]
  | cons r t ih =>
    have h1 : (ks.map (fun k => totalFor (r :: t) k)).sum
        = (ks.map (fun k => if keyOf r = k then r.amount else 0)).sum
          + (ks.map (fun k => totalFor t k)).sum := by
      rw [← sum_map_add]
      exact congrArg _ (List.map_congr_left (fun k _ => totalFor_cons r t k))
    rw [h1, sum_map_ite ks (keyOf r) r.amount hnd (hcov r (List.mem_cons_self r t)),
      ih (fun x hx => hcov x (List.mem_cons_of_mem r hx))]
    simp [List.map_cons]

lemma aggKeys_perm (rs : List Record) :
    List.Perm (aggKeys rs) ((rs.map keyOf).dedup) :=
  List.perm_insertionSort _ _

lemma aggKeys_nodup (rs : List Record) : (aggKeys rs).Nodup :=
  ((aggKeys_perm rs).nodup_iff).mpr ((rs.map keyOf).nodup_dedup)

lemma mem_aggKeys {rs : List Record} {k : Nat × String} :
    k ∈ aggKeys rs ↔ ∃ r ∈ rs, keyOf r = k := by
  rw [(aggKeys_perm rs).mem_iff, List.mem_dedup, List.mem_map]

/-! ### Order of the aggregated table and the per-category groups -/

/-- Strict lexicographic order on (month, category) keys. -/
def keyLT (a b : Nat × String) : Prop :=
  a.1 < b.1 ∨ (a.1 = b.1 ∧ a.2 < b.2)

lemma agg_pairwise (rs : List Record) :
    (aggregate_by_month rs).Pairwise
      (fun x y => keyLT (x.month, x.category) (y.month, y.category)) := by
  have hs : (aggKeys rs).Pairwise keyLE := List.sorted_insertionSort keyLE _
  have hnd : (aggKeys rs).Pairwise (fun a b => a ≠ b) := aggKeys_nodup rs
  have hstrict : (aggKeys rs).Pairwise keyLT := by
    refine (hs.and hnd).imp ?_
    rintro a b ⟨hle, hne⟩
    rcases hle with h1 | ⟨h1, h2⟩
    · exact Or.inl h1
    · refine Or.inr ⟨h1, lt_of_le_of_ne h2 ?_⟩
      intro he
      exact hne (Prod.ext h1 he)
  unfold aggregate_by_month
  exact List.pairwise_map.mpr hstrict

lemma groupFor_category {rows : List ActualsRow} {c : String} :
    ∀ r ∈ groupFor rows c, r.category = c := by
  intro r hr
  have h := (List.mem_filter.mp hr).2
  simpa using h

lemma groupFor_sublist (rows : List ActualsRow) (c : String) :
    (groupFor rows c).Sublist rows :=
  List.filter_sublist rows

lemma group_pairwise_month (rs : List Record) (c : String) :
    (groupFor (aggregate_by_month rs) c).Pairwise (fun x y => x.month < y.month) := by
  have hp := (agg_pairwise rs).sublist (groupFor_sublist (aggregate_by_month rs) c)
  refine hp.imp_of_mem ?_
  intro a b ha hb hab
  rcases hab with h1 | ⟨h1, h2⟩
  · exact h1
  · exfalso
    rw [groupFor_category a ha, groupFor_category b hb] at h2
    exact lt_irrefl _ h2

lemma getLastD_mem {α : Type} : ∀ (l : List α) (d : α), l ≠ [] → l.getLastD d ∈ l
  | [], _, h => absurd rfl h
  | [a], d, _ => by simp
  | a :: b :: t, d, _ => by
    rw [List.getLastD_cons]
    exact List.mem_cons_of_mem a (getLastD_mem (b :: t) a (by simp))

lemma month_le_last :
    ∀ (r0 : ActualsRow) (rest : List ActualsRow),
      (r0 :: rest).Pairwise (fun x y => x.month < y.month) →
      ∀ r ∈ r0 :: rest, r.month ≤ (rest.getLastD r0).month := by
  intro r0 rest
  induction rest generalizing r0 with
  | nil =>
    intro _ r hr
    simp at hr
    subst hr
    simp
  | cons b t ih =>
    intro hp r hr
    rw [List.getLastD_cons]
    rcases List.mem_cons.mp hr with h | h
    · subst h
      have hb : r.month < b.month :=
        (List.pairwise_cons.mp hp).1 b (List.mem_cons_self _ _)
      have hbt : b.month ≤ (t.getLastD b).month :=
        ih b (List.pairwise_cons.mp hp).2 b (List.mem_cons_self _ _)
      exact le_trans (le_of_lt hb) hbt
    · exact ih b (List.pairwise_cons.mp hp).2 r h

lemma head_le_month (r0 : ActualsRow) (rest : List ActualsRow)
    (hp : (r0 :: rest).Pairwise (fun x y => x.month < y.month)) :
    ∀ r ∈ r0 :: rest, r0.month ≤ r.month := by
  intro r hr
  rcases List.mem_cons.mp hr with h | h
  · subst h
    exact le_refl _
  · exact le_of_lt ((List.pairwise_cons.mp hp).1 r h)

/-! ### The reindexed contiguous series (`asfreq` + `fillna`) -/

lemma asfreqFill_cons (r0 : ActualsRow) (rest : List ActualsRow) :
    asfreqFill (r0 :: rest)
      = (List.range ((rest.getLastD r0).month + 1 - r0.month)).map (fun i =>
          (r0.month + i,
           match (r0 :: rest).find? (fun r => r.month == r0.month + i) with
           | some r => r.total
           | none => 0)) := rfl

lemma asfreqFill_fst (r0 : ActualsRow) (rest : List ActualsRow) :
    (asfreqFill (r0 :: rest)).map Prod.fst
      = month_range r0.month ((rest.getLastD r0).month + 1 - r0.month) := by
  rw [asfreqFill_cons, List.map_map]
  rfl

lemma asfreqFill_length (r0 : ActualsRow) (rest : List ActualsRow) :
    (asfreqFill (r0 :: rest)).length = (rest.getLastD r0).month + 1 - r0.month := by
  rw [asfreqFill_cons, List.length_map, List.length_range]

lemma getLast?_map_range {α : Type} (f : Nat → α) (n : Nat) (hn : 0 < n) :
    ((List.range n).map f).getLast? = some (f (n - 1)) := by
  obtain ⟨m, rfl⟩ : ∃ m, n = m + 1 := ⟨n - 1, by omega⟩
  rw [List.range_succ, List.map_append]
  simp

lemma asfreqFill_getLast (r0 : ActualsRow) (rest : List ActualsRow)
    (hle : r0.month ≤ (rest.getLastD r0).month) :
    ∃ v, (asfreqFill (r0 :: rest)).getLast? = some ((rest.getLastD r0).month, v) := by
  have hn : 0 < (rest.getLastD r0).month + 1 - r0.month := by omega
  rw [asfreqFill_cons, getLast?_map_range _ _ hn]
  have hm : r0.month + ((rest.getLastD r0).month + 1 - r0.month - 1)
      = (rest.getLastD r0).month := by omega
  simp only [hm]
  exact ⟨_, rfl⟩

lemma asfreqFill_mem_spec (r0 : ActualsRow) (rest : List ActualsRow) :
    ∀ p ∈ asfreqFill (r0 :: rest),
      (∃ r ∈ r0 :: rest, r.month = p.1 ∧ r.total = p.2)
      ∨ ((∀ r ∈ r0 :: rest, r.month ≠ p.1) ∧ p.2 = 0) := by
  intro p hp
  rw [asfreqFill_cons] at hp
  obtain ⟨i, _, hpe⟩ := List.mem_map.mp hp
  subst hpe
  cases hf : (r0 :: rest).find? (fun r => r.month == r0.month + i) with
  | some r =>
    left
    refine ⟨r, List.mem_of_find?_eq_some hf, ?_, ?_⟩
    · have h1 := List.find?_some hf
      simpa using h1
    · simp [hf]
  | none =>
    right
    constructor
    · intro r hr
      have h1 := List.find?_eq_none.mp hf r hr
      simpa using h1
    · simp [hf]

lemma month_range_pairwise (s n : Nat) :
    (month_range s n).Pairwise (fun a b => a < b) := by
  unfold month_range
  refine List.pairwise_map.mpr ?_
  exact (List.pairwise_lt_range n).imp (fun h => by omega)

/-! ### The per-category frames and their assembly -/

lemma mkFrame_ok {index : List Nat} {c : String} {vals : List Rat}
    {fr : List ForecastRow} (h : mkFrame index c vals = Except.ok fr) :
    index.length = vals.length
    ∧ fr = (index.zip vals).map (fun p => ⟨p.1, c, p.2⟩) := by
  unfold mkFrame at h
  split at h
  · injection h with h1
    exact ⟨by assumption, h1.symm⟩
  · cases h

lemma frameFor_ok {engine : Option Engine} {rows : List ActualsRow}
    {periods : Nat} {c : String} {fr : List ForecastRow}
    (h : frameFor engine rows periods c = Except.ok fr) :
    ∃ lp fc, (asfreqFill (groupFor rows c)).getLast? = some lp
      ∧ forecast_series engine ((asfreqFill (groupFor rows c)).map Prod.snd) periods
          = Except.ok fc
      ∧ fc.length = periods
      ∧ fr = ((month_range (lp.1 + 1) periods).zip fc).map (fun p => ⟨p.1, c, p.2⟩) := by
  unfold frameFor at h
  dsimp only at h
  cases hfc : forecast_series engine ((asfreqFill (groupFor rows c)).map Prod.snd) periods with
  | error e =>
    rw [hfc] at h
    cases h
  | ok fc =>
    rw [hfc] at h
    cases hlp : (asfreqFill (groupFor rows c)).getLast? with
    | none =>
      rw [hlp] at h
      cases h
    | some lp =>
      rw [hlp] at h
      obtain ⟨hlen, hfr⟩ := mkFrame_ok h
      refine ⟨lp, fc, rfl, rfl, ?_, hfr⟩
      have h1 : (month_range (lp.1 + 1) periods).length = periods := by
        simp [month_range]
      omega

lemma zip_map_fst {l1 : List Nat} {l2 : List Rat} (h : l1.length = l2.length)
    (c : String) :
    (((l1.zip l2).map (fun p => (⟨p.1, c, p.2⟩ : ForecastRow))).map ForecastRow.month)
      = l1 := by
  rw [List.map_map]
  have h1 : (ForecastRow.month ∘ fun p : Nat × Rat => (⟨p.1, c, p.2⟩ : ForecastRow))
      = Prod.fst := rfl
  rw [h1, List.map_fst_zip]
  exact le_of_eq h

lemma frameFor_length {engine : Option Engine} {rows : List ActualsRow}
    {periods : Nat} {c : String} {fr : List ForecastRow}
    (h : frameFor engine rows periods c = Except.ok fr) :
    fr.length = periods := by
  obtain ⟨lp, fc, _, _, hlen, hfr⟩ := frameFor_ok h
  rw [hfr, List.length_map, List.length_zip]
  simp [month_range, hlen]

lemma frameFor_months {engine : Option Engine} {rows : List ActualsRow}
    {periods : Nat} {c : String} {fr : List ForecastRow} {lp : Nat × Rat}
    (h : frameFor engine rows periods c = Except.ok fr)
    (hlp : (asfreqFill (groupFor rows c)).getLast? = some lp) :
    fr.map ForecastRow.month = month_range (lp.1 + 1) periods := by
  obtain ⟨lp0, fc, hlp0, _, hlen, hfr⟩ := frameFor_ok h
  have he : lp0 = lp := by
    rw [hlp0] at hlp
    injection hlp
  subst he
  rw [hfr, zip_map_fst]
  simp [month_range, hlen]

lemma frameFor_categories {engine : Option Engine} {rows : List ActualsRow}
    {periods : Nat} {c : String} {fr : List ForecastRow}
    (h : frameFor engine rows periods c = Except.ok fr) :
    ∀ x ∈ fr, x.category = c := by
  obtain ⟨lp, fc, _, _, _, hfr⟩ := frameFor_ok h
  intro x hx
  rw [hfr] at hx
  obtain ⟨p, _, hpx⟩ := List.mem_map.mp hx
  rw [← hpx]

lemma buildFrames_ok {engine : Option Engine} {rows : List ActualsRow}
    {periods : Nat} :
    ∀ (cs : List String) (frames : List (List ForecastRow)),
      buildFrames engine rows periods cs = Except.ok frames →
      List.Forall₂ (fun c fr => frameFor engine rows periods c = Except.ok fr)
        cs frames := by
  intro cs
  induction cs with
  | nil =>
    intro frames h
    injection h with h1
    rw [← h1]
    exact List.Forall₂.nil
  | cons c cs ih =>
    intro frames h
    unfold buildFrames at h
    cases hfr : frameFor engine rows periods c with
    | error e =>
      rw [hfr] at h
      cases h
    | ok fr =>
      rw [hfr] at h
      cases hrest : buildFrames engine rows periods cs with
      | error e =>
        rw [hrest] at h
        cases h
      | ok rest =>
        rw [hrest] at h
        injection h with h1
        rw [← h1]
        exact List.Forall₂.cons hfr (ih rest hrest)

lemma build_forecast_ok {engine : Option Engine} {rows : List ActualsRow}
    {periods : Nat} {out : List ForecastRow}
    (h : build_forecast engine rows periods = Except.ok out) :
    ∃ frames, out = frames.flatten
      ∧ List.Forall₂ (fun c fr => frameFor engine rows periods c = Except.ok fr)
          (categoriesOf rows) frames := by
  unfold build_forecast at h
  split at h
  · cases h
  · rename_i c cs hcs
    split at h
    · cases h
    · rename_i frames hframes
      injection h with h1
      exact ⟨frames, h1.symm, hcs ▸ buildFrames_ok _ _ hframes⟩

lemma categoriesOf_perm (rows : List ActualsRow) :
    List.Perm (categoriesOf rows) ((rows.map ActualsRow.category).dedup) :=
  List.perm_insertionSort _ _

lemma categoriesOf_nodup (rows : List ActualsRow) : (categoriesOf rows).Nodup :=
  ((categoriesOf_perm rows).nodup_iff).mpr ((rows.map ActualsRow.category).nodup_dedup)

lemma mem_categoriesOf {rows : List ActualsRow} {c : String} :
    c ∈ categoriesOf rows ↔ ∃ r ∈ rows, r.category = c := by
  rw [(categoriesOf_perm rows).mem_iff, List.mem_dedup, List.mem_map]

lemma categoriesOf_sorted (rows : List ActualsRow) :
    (categoriesOf rows).Pairwise (fun a b => a < b) := by
  have hs : (categoriesOf rows).Pairwise (fun a b : String => a ≤ b) :=
    List.sorted_insertionSort _ _
  have hnd : (categoriesOf rows).Pairwise (fun a b : String => a ≠ b) :=
    categoriesOf_nodup rows
  refine (hs.and hnd).imp ?_
  rintro a b ⟨hle, hne⟩
  exact lt_of_le_of_ne hle hne

lemma groupFor_ne_nil {rows : List ActualsRow} {c : String}
    (h : c ∈ categoriesOf rows) : groupFor rows c ≠ [] := by
  obtain ⟨r, hr, hrc⟩ := mem_categoriesOf.mp h
  intro hnil
  have hmem : r ∈ groupFor rows c := List.mem_filter.mpr ⟨hr, by simp [hrc]⟩
  rw [hnil] at hmem
  cases hmem

lemma flatten_filter_not_mem {c : String} {cs : List String}
    {frames : List (List ForecastRow)}
    (h : List.Forall₂ (fun c0 fr => ∀ x ∈ fr, x.category = c0) cs frames)
    (hc : c ∉ cs) :
    frames.flatten.filter (fun x => x.category == c) = [] := by
  induction h with
  | nil => rfl
  | @cons a b l1 l2 h1 _ ih =>
    rw [List.flatten_cons, List.filter_append]
    have h0 : b.filter (fun x => x.category == c) = [] := by
      refine List.filter_eq_nil_iff.mpr ?_
      intro x hx
      have hxa : x.category = a := h1 x hx
      simp [hxa]
      intro he
      exact hc (he ▸ List.mem_cons_self a l1)
    rw [h0, ih (fun hm => hc (List.mem_cons_of_mem a hm))]
    rfl

lemma flatten_filter_pick {engine : Option Engine} {rows : List ActualsRow}
    {periods : Nat} {c : String} :
    ∀ {cs : List String} {frames : List (List ForecastRow)},
      List.Forall₂ (fun c0 fr => frameFor engine rows periods c0 = Except.ok fr)
        cs frames →
      cs.Nodup → c ∈ cs →
      ∃ fr, frameFor engine rows periods c = Except.ok fr
        ∧ frames.flatten.filter (fun x => x.category == c) = fr := by
  intro cs frames h
  induction h with
  | nil =>
    intro _ hc
    cases hc
  | @cons a b l1 l2 h1 h2 ih =>
    intro hnd hc
    rw [List.flatten_cons, List.filter_append]
    rcases List.mem_cons.mp hc with he | hm
    · subst he
      refine ⟨b, h1, ?_⟩
      have hb : b.filter (fun x => x.category == c) = b := by
        refine List.filter_eq_self.mpr ?_
        intro x hx
        simp [frameFor_categories h1 x hx]
      have ht : l2.flatten.filter (fun x => x.category == c) = [] := by
        refine flatten_filter_not_mem (h2.imp ?_) (List.nodup_cons.mp hnd).1
        intro c0 fr hfr
        exact frameFor_categories hfr
      rw [hb, ht, List.append_nil]
    · obtain ⟨fr, hfr, hfl⟩ := ih (List.nodup_cons.mp hnd).2 hm
      refine ⟨fr, hfr, ?_⟩
      have hne : a ≠ c := by
        intro he
        exact (List.nodup_cons.mp hnd).1 (he ▸ hm)
      have hb : b.filter (fun x => x.category == c) = [] := by
        refine List.filter_eq_nil_iff.mpr ?_
        intro x hx
        simp [frameFor_categories h1 x hx]
        exact fun he => hne he
      rw [hb, hfl]
      rfl

/-! ### Claim theorems: aggregation -/

/-- C4. Conservation law for `aggregate_by_month`: the totals of the output
rows sum to the sum of all input amounts; every output row's (month,
category) pair comes from some input record; each row's total is exactly
the additive merge of the matching records; and (month, category) is a key
of the output (no duplicate pairs, so no pair absent from the input can
appear). -/
theorem aggregate_conservation (rs : List Record) :
    ((aggregate_by_month rs).map ActualsRow.total).sum = (rs.map Record.amount).sum
    ∧ (∀ a ∈ aggregate_by_month rs, ∃ r ∈ rs, r.month = a.month ∧ r.category = a.category)
    ∧ (∀ a ∈ aggregate_by_month rs, a.total = totalFor rs (a.month, a.category))
    ∧ ((aggregate_by_month rs).map (fun a => (a.month, a.category))).Nodup := by
  refine ⟨?_, ?_, ?_, ?_⟩
  · unfold aggregate_by_month
    rw [List.map_map]
    have h1 : (aggKeys rs).map
          (ActualsRow.total ∘ fun k => (⟨k.1, k.2, totalFor rs k⟩ : ActualsRow))
        = (aggKeys rs).map (fun k => totalFor rs k) := rfl
    rw [h1, ((aggKeys_perm rs).map (fun k => totalFor rs k)).sum_eq]
    exact sum_totals _ rs ((rs.map keyOf).nodup_dedup)
      (fun r hr => List.mem_dedup.mpr (List.mem_map_of_mem keyOf hr))
  · intro a ha
    obtain ⟨k, hk, hak⟩ := List.mem_map.mp ha
    obtain ⟨r, hr, hrk⟩ := mem_aggKeys.mp hk
    subst hak
    exact ⟨r, hr, congrArg Prod.fst hrk, congrArg Prod.snd hrk⟩
  · intro a ha
    obtain ⟨k, _, hak⟩ := List.mem_map.mp ha
    subst hak
    rfl
  · unfold aggregate_by_month
    rw [List.map_map]
    have h1 : ((fun a : ActualsRow => (a.month, a.category))
          ∘ fun k : Nat × String => (⟨k.1, k.2, totalFor rs k⟩ : ActualsRow))
        = fun k : Nat × String => k := by
      funext k
      rfl
    rw [h1]
    simpa using aggKeys_nodup rs

/-- C7. Aggregating an empty record collection yields an empty actuals
table; `aggregate_by_month` is total on empty input (no error path). -/
theorem aggregate_empty (rs : List Record) (h : rs = []) :
    aggregate_by_month rs = [] := by
  subst h
  rfl

/-- Witness for C7 at the empty input. -/
theorem aggregate_empty_witness :
    ([] : List Record) = [] ∧ aggregate_by_month [] = [] :=
  ⟨rfl, aggregate_empty [] rfl⟩

/-! ### Claim theorems: forecaster -/

/-- C1. Fallback exactness: when the engine is unavailable or the series
has fewer than 6 observations, `forecast_series` succeeds with exactly
`periods` values, each exactly the last value of the series, for any
`periods` at least 1. -/
theorem fallback_forecast_exact (engine : Option Engine) (values : List Rat)
    (periods : Nat) (hv : values ≠ []) (_hp : 1 ≤ periods)
    (h : engine = none ∨ values.length < 6) :
    ∃ last, values.getLast? = some last
      ∧ forecast_series engine values periods = Except.ok (List.replicate periods last)
      ∧ (List.replicate periods last).length = periods
      ∧ ∀ x ∈ List.replicate periods last, x = last := by
  obtain ⟨last, hlast⟩ : ∃ l, values.getLast? = some l := by
    cases hx : values.getLast? with
    | none => exact absurd (List.getLast?_eq_none_iff.mp hx) hv
    | some l => exact ⟨l, rfl⟩
  refine ⟨last, hlast, ?_, List.length_replicate _ _,
    fun x hx => List.eq_of_mem_replicate hx⟩
  rcases h with he | hlen
  · subst he
    simp [forecast_series, naiveForecast, hlast]
  · cases engine with
    | none => simp [forecast_series, naiveForecast, hlast]
    | some e => simp [forecast_series, if_pos hlen, naiveForecast, hlast]

/-- Witness for C1: a 1-point series, horizon 2, engine absent. -/
theorem fallback_forecast_exact_witness :
    (([(3 : Rat)] : List Rat) ≠ [] ∧ 1 ≤ 2)
    ∧ ∃ last, ([(3 : Rat)] : List Rat).getLast? = some last
      ∧ forecast_series none [(3 : Rat)] 2 = Except.ok (List.replicate 2 last)
      ∧ (List.replicate 2 last).length = 2
      ∧ ∀ x ∈ List.replicate 2 last, x = last :=
  ⟨⟨by decide, by decide⟩,
   fallback_forecast_exact none [(3 : Rat)] 2 (by decide) (by decide) (Or.inl rfl)⟩

/-- C5. When the engine is present and the series has at least 6
observations, `forecast_series` is exactly the engine's fit-and-forecast
result — the fallback is never taken, and an engine error (a failed fit)
is returned unhandled. -/
theorem fit_error_propagates (e : Engine) (values : List Rat) (periods : Nat)
    (h6 : 6 ≤ values.length) :
    forecast_series (some e) values periods = e values periods
    ∧ ∀ msg, e values periods = Except.error msg →
        forecast_series (some e) values periods = Except.error msg := by
  have hlt : ¬ values.length < 6 := not_lt.mpr h6
  refine ⟨by simp [forecast_series, if_neg hlt], fun msg hm => ?_⟩
  simp [forecast_series, if_neg hlt, hm]

/-- Witness for C5: a 6-point series with a failing engine. -/
theorem fit_error_propagates_witness :
    6 ≤ ([(1 : Rat), 2, 3, 4, 5, 6] : List Rat).length
    ∧ (forecast_series (some failingEngine) [(1 : Rat), 2, 3, 4, 5, 6] 3
        = failingEngine [(1 : Rat), 2, 3, 4, 5, 6] 3
      ∧ ∀ msg, failingEngine [(1 : Rat), 2, 3, 4, 5, 6] 3 = Except.error msg →
          forecast_series (some failingEngine) [(1 : Rat), 2, 3, 4, 5, 6] 3
            = Except.error msg) :=
  ⟨by decide,
   fit_error_propagates failingEngine [(1 : Rat), 2, 3, 4, 5, 6] 3 (by decide)⟩

/-! ### Claim theorems: determinism and empty-table behaviour -/

/-- C8. Two-run determinism: on identical inputs, `aggregate_by_month`
produces identical actuals tables and `build_forecast` on the fallback
path (engine absent) produces identical forecast tables. -/
theorem two_run_determinism (rs₁ rs₂ : List Record) (periods : Nat) (h : rs₁ = rs₂) :
    aggregate_by_month rs₁ = aggregate_by_month rs₂
    ∧ build_forecast none (aggregate_by_month rs₁) periods
        = build_forecast none (aggregate_by_month rs₂) periods := by
  subst h
  exact ⟨rfl, rfl⟩

/-- Witness for C8 at a concrete one-record input. -/
theorem two_run_determinism_witness :
    ([(⟨0, "A", 1⟩ : Record)] = [(⟨0, "A", 1⟩ : Record)])
    ∧ aggregate_by_month [(⟨0, "A", 1⟩ : Record)]
        = aggregate_by_month [(⟨0, "A", 1⟩ : Record)]
    ∧ build_forecast none (aggregate_by_month [(⟨0, "A", 1⟩ : Record)]) 2
        = build_forecast none (aggregate_by_month [(⟨0, "A", 1⟩ : Record)]) 2 :=
  ⟨rfl, two_run_determinism [⟨0, "A", 1⟩] [⟨0, "A", 1⟩] 2 rfl⟩

/-! ### Claim theorems: series builder and assembler -/

/-- C3. Series contiguity: for any category with at least one aggregated
row, the series built by `asfreq('MS').fillna(0)` spans exactly the
contiguous month range from the category's first observed month `m0` to
its last observed month `m1`, with strictly increasing months, no
duplicates, length `(m1 - m0) + 1`, and each month's value is the
aggregated total when the month is observed and 0 otherwise. -/
theorem series_contiguous (rs : List Record) (c : String)
    (h : groupFor (aggregate_by_month rs) c ≠ []) :
    ∃ m0 m1, m0 ≤ m1
      ∧ (∃ r ∈ groupFor (aggregate_by_month rs) c, r.month = m0)
      ∧ (∃ r ∈ groupFor (aggregate_by_month rs) c, r.month = m1)
      ∧ (∀ r ∈ groupFor (aggregate_by_month rs) c, m0 ≤ r.month ∧ r.month ≤ m1)
      ∧ (asfreqFill (groupFor (aggregate_by_month rs) c)).map Prod.fst
          = month_range m0 (m1 - m0 + 1)
      ∧ (asfreqFill (groupFor (aggregate_by_month rs) c)).length = m1 - m0 + 1
      ∧ ((asfreqFill (groupFor (aggregate_by_month rs) c)).map Prod.fst).Pairwise
          (fun a b => a < b)
      ∧ ∀ p ∈ asfreqFill (groupFor (aggregate_by_month rs) c),
          (∃ r ∈ groupFor (aggregate_by_month rs) c, r.month = p.1 ∧ r.total = p.2)
          ∨ ((∀ r ∈ groupFor (aggregate_by_month rs) c, r.month ≠ p.1) ∧ p.2 = 0) := by
  obtain ⟨r0, rest, hg⟩ : ∃ r0 rest, groupFor (aggregate_by_month rs) c = r0 :: rest := by
    cases hg : groupFor (aggregate_by_month rs) c with
    | nil => exact absurd hg h
    | cons a t => exact ⟨a, t, rfl⟩
  have hp : (r0 :: rest).Pairwise (fun x y => x.month < y.month) := by
    have h1 := group_pairwise_month rs c
    rwa [hg] at h1
  have hle : r0.month ≤ (rest.getLastD r0).month :=
    month_le_last r0 rest hp r0 (List.mem_cons_self _ _)
  have hlast_mem : rest.getLastD r0 ∈ r0 :: rest := by
    have h1 := getLastD_mem (r0 :: rest) r0 (by simp)
    rwa [List.getLastD_cons] at h1
  refine ⟨r0.month, (rest.getLastD r0).month, hle, ?_, ?_, ?_, ?_, ?_, ?_, ?_⟩
  · exact ⟨r0, by rw [hg]; exact List.mem_cons_self _ _, rfl⟩
  · exact ⟨rest.getLastD r0, by rw [hg]; exact hlast_mem, rfl⟩
  · intro r hr
    rw [hg] at hr
    exact ⟨head_le_month r0 rest hp r hr, month_le_last r0 rest hp r hr⟩
  · rw [hg, asfreqFill_fst]
    congr 1
    omega
  · rw [hg, asfreqFill_length]
    omega
  · rw [hg, asfreqFill_fst]
    exact month_range_pairwise _ _
  · intro p hp2
    rw [hg] at hp2
    rw [hg]
    exact asfreqFill_mem_spec r0 rest p hp2

/-- Witness for C3: the spec's example — category Rent observed in months
0 and 2 with the middle month missing. -/
theorem series_contiguous_witness :
    groupFor (aggregate_by_month
        [(⟨0, "Rent", -1000⟩ : Record), ⟨2, "Rent", -1000⟩]) "Rent" ≠ []
    ∧ ∃ m0 m1, m0 ≤ m1
      ∧ (∃ r ∈ groupFor (aggregate_by_month
            [(⟨0, "Rent", -1000⟩ : Record), ⟨2, "Rent", -1000⟩]) "Rent", r.month = m0)
      ∧ (∃ r ∈ groupFor (aggregate_by_month
            [(⟨0, "Rent", -1000⟩ : Record), ⟨2, "Rent", -1000⟩]) "Rent", r.month = m1)
      ∧ (∀ r ∈ groupFor (aggregate_by_month
            [(⟨0, "Rent", -1000⟩ : Record), ⟨2, "Rent", -1000⟩]) "Rent",
          m0 ≤ r.month ∧ r.month ≤ m1)
      ∧ (asfreqFill (groupFor (aggregate_by_month
            [(⟨0, "Rent", -1000⟩ : Record), ⟨2, "Rent", -1000⟩]) "Rent")).map Prod.fst
          = month_range m0 (m1 - m0 + 1)
      ∧ (asfreqFill (groupFor (aggregate_by_month
            [(⟨0, "Rent", -1000⟩ : Record), ⟨2, "Rent", -1000⟩]) "Rent")).length
          = m1 - m0 + 1
      ∧ ((asfreqFill (groupFor (aggregate_by_month
            [(⟨0, "Rent", -1000⟩ : Record), ⟨2, "Rent", -1000⟩]) "Rent")).map
            Prod.fst).Pairwise (fun a b => a < b)
      ∧ ∀ p ∈ asfreqFill (groupFor (aggregate_by_month
            [(⟨0, "Rent", -1000⟩ : Record), ⟨2, "Rent", -1000⟩]) "Rent"),
          (∃ r ∈ groupFor (aggregate_by_month
              [(⟨0, "Rent", -1000⟩ : Record), ⟨2, "Rent", -1000⟩]) "Rent",
            r.month = p.1 ∧ r.total = p.2)
          ∨ ((∀ r ∈ groupFor (aggregate_by_month
              [(⟨0, "Rent", -1000⟩ : Record), ⟨2, "Rent", -1000⟩]) "Rent",
            r.month ≠ p.1) ∧ p.2 = 0) :=
  ⟨by with_unfolding_all decide,
   series_contiguous [⟨0, "Rent", -1000⟩, ⟨2, "Rent", -1000⟩] "Rent" (by with_unfolding_all decide)⟩

/-- C2. Forecast horizon exactness: whenever `build_forecast` succeeds,
the rows it emits for a category number exactly `periods`, their months
are exactly the `periods` consecutive calendar months immediately after
the last month of that category's series, in chronological order, and
every forecast month lies strictly after every actual month of that
category (no gap, no overlap). -/
theorem forecast_horizon_exact (engine : Option Engine) (rs : List Record)
    (periods : Nat) (out : List ForecastRow) (c : String)
    (h : build_forecast engine (aggregate_by_month rs) periods = Except.ok out)
    (hc : c ∈ categoriesOf (aggregate_by_month rs)) :
    ∃ lp, (asfreqFill (groupFor (aggregate_by_month rs) c)).getLast? = some lp
      ∧ (out.filter (fun x => x.category == c)).length = periods
      ∧ (out.filter (fun x => x.category == c)).map ForecastRow.month
          = month_range (lp.1 + 1) periods
      ∧ ∀ x ∈ out.filter (fun x => x.category == c),
          ∀ r ∈ groupFor (aggregate_by_month rs) c, r.month < x.month := by
  obtain ⟨frames, hout, hf⟩ := build_forecast_ok h
  obtain ⟨fr, hfr, hfil⟩ := flatten_filter_pick hf (categoriesOf_nodup _) hc
  subst hout
  obtain ⟨lp, fc, hlp, _, _, _⟩ := frameFor_ok hfr
  refine ⟨lp, hlp, ?_, ?_, ?_⟩
  · rw [hfil]
    exact frameFor_length hfr
  · rw [hfil]
    exact frameFor_months hfr hlp
  · intro x hx r hr
    have hxm : x.month ∈ month_range (lp.1 + 1) periods := by
      rw [← frameFor_months hfr hlp, ← hfil]
      exact List.mem_map_of_mem _ hx
    obtain ⟨i, _, hi⟩ := List.mem_map.mp hxm
    obtain ⟨r0, rest, hg⟩ :
        ∃ r0 rest, groupFor (aggregate_by_month rs) c = r0 :: rest := by
      cases hg2 : groupFor (aggregate_by_month rs) c with
      | nil => exact absurd hg2 (groupFor_ne_nil hc)
      | cons a t => exact ⟨a, t, rfl⟩
    have hp : (r0 :: rest).Pairwise (fun a b => a.month < b.month) := by
      have h1 := group_pairwise_month rs c
      rwa [hg] at h1
    have hle : r0.month ≤ (rest.getLastD r0).month :=
      month_le_last r0 rest hp r0 (List.mem_cons_self _ _)
    obtain ⟨v, hv⟩ := asfreqFill_getLast r0 rest hle
    have hlp1 : lp.1 = (rest.getLastD r0).month := by
      rw [hg] at hlp
      rw [hlp] at hv
      injection hv with h1
      rw [h1]
    have hrb : r.month ≤ (rest.getLastD r0).month := by
      rw [hg] at hr
      exact month_le_last r0 rest hp r hr
    rw [← hi, hlp1]
    omega

/-- Witness for C2: two observed Rent months with a gap, engine absent,
horizon 3; the forecast months are exactly the three months after the last
actual. -/
theorem forecast_horizon_exact_witness :
    (build_forecast none (aggregate_by_month
        [(⟨0, "Rent", -1000⟩ : Record), ⟨2, "Rent", -1000⟩]) 3
      = Except.ok [⟨3, "Rent", -1000⟩, ⟨4, "Rent", -1000⟩, ⟨5, "Rent", -1000⟩]
     ∧ "Rent" ∈ categoriesOf (aggregate_by_month
        [(⟨0, "Rent", -1000⟩ : Record), ⟨2, "Rent", -1000⟩]))
    ∧ ∃ lp, (asfreqFill (groupFor (aggregate_by_month
          [(⟨0, "Rent", -1000⟩ : Record), ⟨2, "Rent", -1000⟩]) "Rent")).getLast?
        = some lp
      ∧ (([(⟨3, "Rent", -1000⟩ : ForecastRow), ⟨4, "Rent", -1000⟩,
          ⟨5, "Rent", -1000⟩].filter (fun x => x.category == "Rent")).length = 3)
      ∧ (([(⟨3, "Rent", -1000⟩ : ForecastRow), ⟨4, "Rent", -1000⟩,
          ⟨5, "Rent", -1000⟩].filter (fun x => x.category == "Rent")).map
            ForecastRow.month = month_range (lp.1 + 1) 3)
      ∧ ∀ x ∈ [(⟨3, "Rent", -1000⟩ : ForecastRow), ⟨4, "Rent", -1000⟩,
          ⟨5, "Rent", -1000⟩].filter (fun x => x.category == "Rent"),
          ∀ r ∈ groupFor (aggregate_by_month
            [(⟨0, "Rent", -1000⟩ : Record), ⟨2, "Rent", -1000⟩]) "Rent",
            r.month < x.month :=
  ⟨⟨by with_unfolding_all decide, by with_unfolding_all decide⟩,
   forecast_horizon_exact none [⟨0, "Rent", -1000⟩, ⟨2, "Rent", -1000⟩] 3
     [⟨3, "Rent", -1000⟩, ⟨4, "Rent", -1000⟩, ⟨5, "Rent", -1000⟩] "Rent"
     (by with_unfolding_all decide) (by with_unfolding_all decide)⟩

/-- C10. Block structure of the assembled forecast: on success, the output
is the concatenation of one block per category, in ascending category
order, each block holding exactly `periods` rows all labelled with its
category. -/
theorem forecast_blocks_sorted (engine : Option Engine) (rows : List ActualsRow)
    (periods : Nat) (out : List ForecastRow)
    (h : build_forecast engine rows periods = Except.ok out) :
    (categoriesOf rows).Pairwise (fun a b => a < b)
    ∧ ∃ frames, out = frames.flatten
        ∧ List.Forall₂ (fun c fr => fr.length = periods ∧ ∀ x ∈ fr, x.category = c)
            (categoriesOf rows) frames := by
  obtain ⟨frames, hout, hf⟩ := build_forecast_ok h
  refine ⟨categoriesOf_sorted rows, frames, hout, ?_⟩
  exact hf.imp (fun c fr hx => ⟨frameFor_length hx, frameFor_categories hx⟩)

/-- Witness for C10: two categories, engine absent, horizon 1. -/
theorem forecast_blocks_sorted_witness :
    build_forecast none [(⟨0, "B", 2⟩ : ActualsRow), ⟨0, "A", 1⟩] 1
      = Except.ok [⟨1, "A", 1⟩, ⟨1, "B", 2⟩]
    ∧ ((categoriesOf [(⟨0, "B", 2⟩ : ActualsRow), ⟨0, "A", 1⟩]).Pairwise
        (fun a b => a < b)
      ∧ ∃ frames, ([(⟨1, "A", 1⟩ : ForecastRow), ⟨1, "B", 2⟩] : List ForecastRow)
            = frames.flatten
          ∧ List.Forall₂ (fun c fr => fr.length = 1 ∧ ∀ x ∈ fr, x.category = c)
              (categoriesOf [(⟨0, "B", 2⟩ : ActualsRow), ⟨0, "A", 1⟩]) frames) :=
  ⟨by with_unfolding_all decide,
   forecast_blocks_sorted none [⟨0, "B", 2⟩, ⟨0, "A", 1⟩] 1
     [⟨1, "A", 1⟩, ⟨1, "B", 2⟩] (by with_unfolding_all decide)⟩

/-! ### Claim theorems: invocation surface -/

/-- Counterexample for C6: the argparse surface of `main` registers only
`--input` and `--output`; passing a forecast-horizon option is rejected as
unrecognized, so the invocation surface does not accept an optional
horizon parameter. -/
theorem invocation_no_horizon_option :
    parse_args [("--input", "ledger.csv"), ("--output", "forecast.xlsx"),
        ("--periods", "12")]
      = Except.error "unrecognized arguments" := rfl

/-- C6 (amended). The invocation surface accepts exactly two parameters,
both required (`--input`, `--output`); no horizon option exists, and the
pipeline invokes `build_forecast` with the function-level default horizon
of 6. -/
theorem invocation_surface_amended (i o : String) (engine : Option Engine)
    (recs : List Record) (a : List ActualsRow) (f : List ForecastRow)
    (h : run_pipeline engine recs = Except.ok (a, f)) :
    parse_args [("--input", i), ("--output", o)] = Except.ok ⟨i, o⟩
    ∧ parse_args [("--output", o)]
        = Except.error "the following arguments are required: --input"
    ∧ parse_args [("--input", i)]
        = Except.error "the following arguments are required: --output"
    ∧ a = aggregate_by_month recs
    ∧ build_forecast engine (aggregate_by_month recs) 6 = Except.ok f := by
  have hh : a = aggregate_by_month recs
      ∧ build_forecast engine (aggregate_by_month recs) 6 = Except.ok f := by
    unfold run_pipeline at h
    cases hb : build_forecast engine (aggregate_by_month recs) 6 with
    | error e =>
      rw [hb] at h
      cases h
    | ok fc =>
      rw [hb] at h
      injection h with h1
      have h2 : aggregate_by_month recs = a := congrArg Prod.fst h1
      have h3 : fc = f := congrArg Prod.snd h1
      exact ⟨h2.symm, congrArg Except.ok h3⟩
  exact ⟨rfl, rfl, rfl, hh.1, hh.2⟩

/-- Witness for the amended C6 at a one-record ledger. -/
theorem invocation_surface_amended_witness :
    run_pipeline none [(⟨0, "A", 1⟩ : Record)]
      = Except.ok ([⟨0, "A", 1⟩],
          [⟨1, "A", 1⟩, ⟨2, "A", 1⟩, ⟨3, "A", 1⟩, ⟨4, "A", 1⟩, ⟨5, "A", 1⟩,
           ⟨6, "A", 1⟩])
    ∧ (parse_args [("--input", "ledger.csv"), ("--output", "forecast.xlsx")]
        = Except.ok ⟨"ledger.csv", "forecast.xlsx"⟩
      ∧ parse_args [("--output", "forecast.xlsx")]
          = Except.error "the following arguments are required: --input"
      ∧ parse_args [("--input", "ledger.csv")]
          = Except.error "the following arguments are required: --output"
      ∧ ([(⟨0, "A", 1⟩ : ActualsRow)] : List ActualsRow)
          = aggregate_by_month [⟨0, "A", 1⟩]
      ∧ build_forecast none (aggregate_by_month [(⟨0, "A", 1⟩ : Record)]) 6
          = Except.ok [⟨1, "A", 1⟩, ⟨2, "A", 1⟩, ⟨3, "A", 1⟩, ⟨4, "A", 1⟩,
              ⟨5, "A", 1⟩, ⟨6, "A", 1⟩]) :=
  ⟨by with_unfolding_all decide,
   invocation_surface_amended "ledger.csv" "forecast.xlsx" none [⟨0, "A", 1⟩]
     [⟨0, "A", 1⟩]
     [⟨1, "A", 1⟩, ⟨2, "A", 1⟩, ⟨3, "A", 1⟩, ⟨4, "A", 1⟩, ⟨5, "A", 1⟩, ⟨6, "A", 1⟩]
     (by with_unfolding_all decide)⟩

/-- C9. On an empty aggregated table (empty input), `build_forecast` hits
`pd.concat` with an empty list of frames and raises, instead of returning
an empty forecast table. -/
theorem build_forecast_empty_error (engine : Option Engine) (periods : Nat) :
    build_forecast engine (aggregate_by_month []) periods
      = Except.error "ValueError: No objects to concatenate" := rfl

end BudgetForecasting
